import Mathlib

/-!
Shallow embedding of the ESP32 Chore Organizer
(`src/ESP32-Chore-Organizer/ESP32-Chore-Organizer.ino`).

Timestamps (`time_t`) are modelled as `Nat` epoch seconds (seconds since
1970-01-01 00:00:00 UTC, a Thursday).  The calendar arithmetic
(`breakTime`, `makeTime`, `weekday`, `LEAP_YEAR`, `monthDays`) follows the
TimeLib (Paul Stoffregen) library that the sketch includes via
`#include <TimeLib.h>`; those functions are embedded here because the
sketch's recurrence computation is defined in terms of them.
-/

namespace ChoreOrganizer

/-- Seconds in a day (TimeLib `SECS_PER_DAY`). -/
def SECS_PER_DAY : Nat := 86400

/-- TimeLib `LEAP_YEAR(Y)`: `Y` is the offset from 1970; leap iff `1970+Y`
is divisible by 4 and (not by 100 unless also by 400). -/
def leapYear (y : Nat) : Bool :=
  (1970 + y) % 4 == 0 && ((1970 + y) % 100 != 0 || (1970 + y) % 400 == 0)

/-- Length in days of the year `1970 + y`. -/
def yearLen (y : Nat) : Nat := if leapYear y then 366 else 365

/-- TimeLib `monthDays`: month lengths of a non-leap year, 0-based index. -/
def monthDays : List Nat := [31, 28, 31, 30, 31, 30, 31, 31, 30, 31, 30, 31]

/-- Length of the 0-based month `m` (TimeLib uses 29 for February, `m = 1`,
in leap years). -/
def monthLen (leap : Bool) (m : Nat) : Nat :=
  if m = 1 then (if leap then 29 else 28) else monthDays.getD m 0

/-- Days in the months `0 .. m-1` (the month loop of TimeLib `makeTime`). -/
def cumMonthLen (leap : Bool) : Nat → Nat
  | 0 => 0
  | m + 1 => cumMonthLen leap m + monthLen leap m

/-- Number of leap years among `1970 .. 1970+y-1` (the year loop of
TimeLib `makeTime`). -/
def leapDaysBefore : Nat → Nat
  | 0 => 0
  | y + 1 => leapDaysBefore y + (if leapYear y then 1 else 0)

/-- Days from the epoch to the start of the year `1970 + y`. -/
def daysUpTo : Nat → Nat
  | 0 => 0
  | y + 1 => daysUpTo y + yearLen y

/-- TimeLib `tmElements_t`: a broken-down calendar time.  `year` is the
offset from 1970, `month` is 1-based (1 = January), `day` is 1-based. -/
structure TmElements where
  second : Nat
  minute : Nat
  hour : Nat
  wday : Nat
  day : Nat
  month : Nat
  year : Nat
deriving Repr, DecidableEq

/-- The year loop of TimeLib `breakTime`: starting from year offset `y`,
consume whole years out of `days` until fewer than a year's worth of days
remain.  The C loop terminates because each iteration removes at least 365
days; fuel `days` is plenty. -/
def breakYearAux : Nat → Nat → Nat → Nat × Nat
  | 0, days, y => (y, days)
  | fuel + 1, days, y =>
    if days < yearLen y then (y, days)
    else breakYearAux fuel (days - yearLen y) (y + 1)

/-- The month loop of TimeLib `breakTime`: `for (month = 0; month < 12; ...)`
subtracting month lengths until the remaining days fit in a month. -/
def breakMonthAux (leap : Bool) : Nat → Nat → Nat → Nat × Nat
  | 0, m, time => (m, time)
  | fuel + 1, m, time =>
    if time < monthLen leap m then (m, time)
    else breakMonthAux leap fuel (m + 1) (time - monthLen leap m)

/-- TimeLib `breakTime`: split epoch seconds into calendar components. -/
def breakTime (t : Nat) : TmElements :=
  let second := t % 60
  let t1 := t / 60
  let minute := t1 % 60
  let t2 := t1 / 60
  let hour := t2 % 24
  let days := t2 / 24
  let wday := (days + 4) % 7 + 1
  let yr := breakYearAux days days 0
  let mr := breakMonthAux (leapYear yr.1) 12 0 yr.2
  { second := second, minute := minute, hour := hour, wday := wday,
    day := mr.2 + 1, month := mr.1 + 1, year := yr.1 }

/-- TimeLib `makeTime`: rebuild epoch seconds from calendar components.
It accumulates `Year * 365` days, one extra day per leap year before
`Year`, the month lengths before `Month`, `Day - 1` days, and the
time-of-day components. -/
def makeTime (tm : TmElements) : Nat :=
  tm.year * (SECS_PER_DAY * 365)
    + leapDaysBefore tm.year * SECS_PER_DAY
    + cumMonthLen (leapYear tm.year) (tm.month - 1) * SECS_PER_DAY
    + (tm.day - 1) * SECS_PER_DAY
    + tm.hour * 3600
    + tm.minute * 60
    + tm.second

/-- TimeLib `weekday(t)`: 1 = Sunday, 2 = Monday, ..., 7 = Saturday.
The epoch day (1970-01-01) is a Thursday, hence the offset 4. -/
def weekday (t : Nat) : Nat := (t / SECS_PER_DAY + 4) % 7 + 1

/-- The `while (weekday(nextDue) != 2) nextDue += 24 * 3600;` loop of
`calculateNextDueDate`'s weekly branch.  The C loop terminates within at
most 6 iterations because weekdays cycle with period 7; fuel 7 covers it. -/
def adjustToMonday : Nat → Nat → Nat
  | 0, t => t
  | fuel + 1, t =>
    if weekday t = 2 then t else adjustToMonday fuel (t + 24 * 3600)

/-- Points constants of the sketch. -/
def DAILY_POINTS : Int := 1

/-- Points for a weekly chore. -/
def WEEKLY_POINTS : Int := 5

/-- Points for a monthly chore. -/
def MONTHLY_POINTS : Int := 20

/-- The `Chore` struct.  `lastCompleted = 0` encodes "never completed". -/
structure Chore where
  name : String
  person : String
  frequency : String
  completed : Bool
  lastCompleted : Nat
  nextDue : Nat
  pointsAwarded : Bool
deriving Repr, DecidableEq

/-- The `User` struct.  `points` is a C `int`, modelled as `Int`. -/
structure User where
  username : String
  points : Int
deriving Repr, DecidableEq

/-- The sketch's global mutable state: the `chores` and `users` vectors and
the display selection cursor `currentChoreIndex`. -/
structure AppState where
  chores : List Chore
  users : List User
  currentChoreIndex : Nat
deriving Repr, DecidableEq

/-- `calculateNextDueDate`: recompute `nextDue` from `lastCompleted` and
`frequency`.  A never-completed chore (`lastCompleted = 0`) is due at the
current time `nowT`; otherwise the result does not depend on `nowT`.
A frequency string other than `daily`/`weekly`/`monthly` leaves the chore
unchanged. -/
def calculateNextDueDate (nowT : Nat) (c : Chore) : Chore :=
  if c.lastCompleted = 0 then { c with nextDue := nowT }
  else if c.frequency = "daily" then
    { c with nextDue :=
        makeTime { breakTime c.lastCompleted with hour := 0, minute := 0, second := 0 }
          + 24 * 3600 }
  else if c.frequency = "weekly" then
    { c with nextDue := adjustToMonday 7 (c.lastCompleted + 7 * 24 * 3600) }
  else if c.frequency = "monthly" then
    { c with nextDue :=
        makeTime (if 12 < (breakTime c.lastCompleted).month + 1
          then { breakTime c.lastCompleted with
                   day := 1, month := 1, year := (breakTime c.lastCompleted).year + 1 }
          else { breakTime c.lastCompleted with
                   day := 1, month := (breakTime c.lastCompleted).month + 1 }) }
  else c

/-- `isChoreOverdue`: not completed and the current time is strictly past
the due date (`now() > chore.nextDue`). -/
def isChoreOverdue (nowT : Nat) (c : Chore) : Bool :=
  !c.completed && decide (c.nextDue < nowT)

/-- `updateChoreStatus` (the status sweep): every completed chore whose
`nextDue` has arrived (`current >= nextDue`) is reset to incomplete with
its award flag cleared; the returned flag records whether anything
changed (the sketch uses it to trigger `saveChores` + `updateLCD`). -/
def updateChoreStatus (nowT : Nat) : List Chore → List Chore × Bool
  | [] => ([], false)
  | c :: rest =>
    let r := updateChoreStatus nowT rest
    if c.completed = true ∧ c.nextDue ≤ nowT then
      ({ c with completed := false, pointsAwarded := false } :: r.1, true)
    else (c :: r.1, r.2)

/-- The four-way branch decision of `updateLEDStatus`.  On the hardware,
`offline` and `overdue` both light the red LED, `allClear` the green one,
and `pending` the yellow one; the spec's status aggregator is this
branch choice. -/
inductive Indicator
  | offline
  | allClear
  | overdue
  | pending
deriving Repr, DecidableEq

/-- `updateLEDStatus`: scan the chores for `allCompleted` / `anyOverdue`,
then choose a signal: WiFi down wins, then empty-or-all-completed, then
any-overdue, then pending. -/
def updateLEDStatus (wifiConnected : Bool) (nowT : Nat) (cs : List Chore) : Indicator :=
  let allCompleted := cs.all (fun c => c.completed)
  let anyOverdue := cs.any (fun c => !c.completed && isChoreOverdue nowT c)
  if !wifiConnected then .offline
  else if cs.isEmpty || allCompleted then .allClear
  else if anyOverdue then .overdue
  else .pending

/-- The frequency-indexed points constant (`pointsToAdd` /
`pointsToSubtract` computation, duplicated at each award/debit site of the
sketch).  An unknown frequency string leaves it at 0. -/
def pointsForFrequency (f : String) : Int :=
  if f = "daily" then DAILY_POINTS
  else if f = "weekly" then WEEKLY_POINTS
  else if f = "monthly" then MONTHLY_POINTS
  else 0

/-- The award loop `for (User& user : users) if (user.username == personName)
{ user.points += pointsToAdd; break; }`: credit the first matching user. -/
def creditFirst (uname : String) (p : Int) : List User → List User
  | [] => []
  | u :: rest =>
    if u.username = uname then { u with points := u.points + p } :: rest
    else u :: creditFirst uname p rest

/-- The debit loop: subtract from the first matching user, clamping a
negative result to 0 (`if (user.points < 0) user.points = 0`). -/
def debitFirst (uname : String) (p : Int) : List User → List User
  | [] => []
  | u :: rest =>
    if u.username = uname then
      { u with points := if u.points - p < 0 then 0 else u.points - p } :: rest
    else u :: debitFirst uname p rest

/-- The mark-complete path (shared by `handleToggleChore`'s else-branch and
the joystick confirmation dialog's "Yes"): set `completed`, stamp
`lastCompleted = now`, recompute `nextDue`, and — only if `pointsAwarded`
was still false — credit the first user matching `person`; `pointsAwarded`
ends up true unconditionally. -/
def markCompleteChore (nowT : Nat) (c : Chore) (users : List User) : Chore × List User :=
  let users' := if c.pointsAwarded then users
                else creditFirst c.person (pointsForFrequency c.frequency) users
  let c1 := { c with completed := true, pointsAwarded := true, lastCompleted := nowT }
  (calculateNextDueDate nowT c1, users')

/-- The mark-incomplete path (shared by `handleToggleChore`'s
completed-branch and the joystick short press on a completed chore): if
`pointsAwarded`, debit the first matching user (clamped at 0) and clear
the flag; then clear `completed`. -/
def markIncompleteChore (c : Chore) (users : List User) : Chore × List User :=
  let users' := if c.pointsAwarded then debitFirst c.person (pointsForFrequency c.frequency) users
                else users
  ({ c with pointsAwarded := false, completed := false }, users')

/-- The in-range body of `handleToggleChore`: flip the chore at index `i`
through the ledger. -/
def toggleChore (nowT : Nat) (i : Nat) (s : AppState) : AppState :=
  match s.chores[i]? with
  | none => s
  | some c =>
    if c.completed then
      let r := markIncompleteChore c s.users
      { s with chores := s.chores.set i r.1, users := r.2 }
    else
      let r := markCompleteChore nowT c s.users
      { s with chores := s.chores.set i r.1, users := r.2 }

/-- The joystick confirmation dialog's "Yes" commit (`handleJoystick`,
`if (confirmationSelection && !chores.empty())`): marks the selected chore
complete without checking whether it already is. -/
def confirmCompleteChore (nowT : Nat) (i : Nat) (s : AppState) : AppState :=
  match s.chores[i]? with
  | none => s
  | some c =>
    let r := markCompleteChore nowT c s.users
    { s with chores := s.chores.set i r.1, users := r.2 }

/-- The joystick short press while browsing: a completed chore is marked
incomplete immediately; an incomplete one only opens the confirmation
dialog (the returned flag). -/
def shortPressBrowse (i : Nat) (s : AppState) : AppState × Bool :=
  match s.chores[i]? with
  | none => (s, false)
  | some c =>
    if c.completed then
      let r := markIncompleteChore c s.users
      ({ s with chores := s.chores.set i r.1, users := r.2 }, false)
    else (s, true)

/-- A request-surface response: every handler answers either a success
payload (HTTP 200) or an error (HTTP 400); the payload contents are not
needed by the claims. -/
inductive Resp
  | ok
  | error
deriving Repr, DecidableEq

/-- `handleToggleChore` (toggle branch): `index` missing or out of range
yields an error and no state change.  `none` models a missing `index`
argument; `some i` the parsed `toInt` value. -/
def handleToggleChore (idx : Option Int) (nowT : Nat) (s : AppState) : AppState × Resp :=
  match idx with
  | none => (s, .error)
  | some i =>
    if 0 ≤ i ∧ i < (s.chores.length : Int) then (toggleChore nowT i.toNat s, .ok)
    else (s, .error)

/-- `handleAddChore`: requires `name`, `person` and `frequency`; the new
chore starts incomplete, never completed, no award, and its `nextDue` is
computed (a never-completed chore is due at `nowT`). -/
def handleAddChore (nm pr fr : Option String) (nowT : Nat) (s : AppState) : AppState × Resp :=
  match nm, pr, fr with
  | some nm, some pr, some fr =>
    let c := calculateNextDueDate nowT
      { name := nm, person := pr, frequency := fr, completed := false,
        lastCompleted := 0, nextDue := 0, pointsAwarded := false }
    ({ s with chores := s.chores ++ [c] }, .ok)
  | _, _, _ => (s, .error)

/-- `handleDeleteChore`: erase the chore at `index` and clamp the
selection cursor (`currentChoreIndex = size - 1; if (< 0) = 0` — the
truncated `Nat` subtraction yields the same 0 on an emptied list). -/
def handleDeleteChore (idx : Option Int) (s : AppState) : AppState × Resp :=
  match idx with
  | none => (s, .error)
  | some i =>
    if 0 ≤ i ∧ i < (s.chores.length : Int) then
      let chores' := s.chores.eraseIdx i.toNat
      let cur := if chores'.length ≤ s.currentChoreIndex then chores'.length - 1
                 else s.currentChoreIndex
      ({ s with chores := chores', currentChoreIndex := cur }, .ok)
    else (s, .error)

/-- `handleGetChore`: read-only; serializes name/person/frequency on
success (payload irrelevant here), errors otherwise. -/
def handleGetChore (idx : Option Int) (s : AppState) : AppState × Resp :=
  match idx with
  | none => (s, .error)
  | some i =>
    if 0 ≤ i ∧ i < (s.chores.length : Int) then (s, .ok) else (s, .error)

/-- `handleUpdateChore`: requires all of `index`, `name`, `person`,
`frequency`; overwrites the three fields and recomputes `nextDue` only if
the chore is completed. -/
def handleUpdateChore (idx : Option Int) (nm pr fr : Option String) (nowT : Nat)
    (s : AppState) : AppState × Resp :=
  match idx, nm, pr, fr with
  | some i, some nm, some pr, some fr =>
    if 0 ≤ i ∧ i < (s.chores.length : Int) then
      match s.chores[i.toNat]? with
      | none => (s, .error)
      | some c =>
        let c1 := { c with name := nm, person := pr, frequency := fr }
        let c2 := if c1.completed then calculateNextDueDate nowT c1 else c1
        ({ s with chores := s.chores.set i.toNat c2 }, .ok)
    else (s, .error)
  | _, _, _, _ => (s, .error)

/-- `handleAddUser`: requires `username`; new users start at 0 points. -/
def handleAddUser (username : Option String) (s : AppState) : AppState × Resp :=
  match username with
  | some un => ({ s with users := s.users ++ [{ username := un, points := 0 }] }, .ok)
  | none => (s, .error)

/-- `handleDeleteUser`: erase the user at `index` (no cascade to chores,
no cursor involved). -/
def handleDeleteUser (idx : Option Int) (s : AppState) : AppState × Resp :=
  match idx with
  | none => (s, .error)
  | some i =>
    if 0 ≤ i ∧ i < (s.users.length : Int) then
      ({ s with users := s.users.eraseIdx i.toNat }, .ok)
    else (s, .error)

/-- `handleGetUser`: read-only; errors on a bad index. -/
def handleGetUser (idx : Option Int) (s : AppState) : AppState × Resp :=
  match idx with
  | none => (s, .error)
  | some i =>
    if 0 ≤ i ∧ i < (s.users.length : Int) then (s, .ok) else (s, .error)

/-- `handleUpdateUser`: requires `index` and `username`; renames the user,
points unchanged. -/
def handleUpdateUser (idx : Option Int) (username : Option String)
    (s : AppState) : AppState × Resp :=
  match idx, username with
  | some i, some un =>
    if 0 ≤ i ∧ i < (s.users.length : Int) then
      match s.users[i.toNat]? with
      | none => (s, .error)
      | some u => ({ s with users := s.users.set i.toNat { u with username := un } }, .ok)
    else (s, .error)
  | _, _ => (s, .error)

/-- `handleResetPoints`: zero every user's points. -/
def handleResetPoints (s : AppState) : AppState × Resp :=
  ({ s with users := s.users.map (fun u => { u with points := 0 }) }, .ok)

/-- Joystick analog thresholds: readings below `JOYSTICK_CENTER_LOW` or
above `JOYSTICK_CENTER_HIGH` count as deflections; in between is the
dead-zone ("center"). -/
def JOYSTICK_CENTER_LOW : Nat := 1000

/-- Upper dead-zone bound. -/
def JOYSTICK_CENTER_HIGH : Nat := 3000

/-- Minimum milliseconds between navigation moves (`NAVIGATION_DELAY`). -/
def NAVIGATION_DELAY : Nat := 300

/-- The navigation-relevant part of the joystick state: the selection
cursor, the name-scroll offset, and the static `lastNavigationTime`. -/
structure NavState where
  currentChoreIndex : Nat
  scrollPosition : Nat
  lastNavigationTime : Nat
deriving Repr, DecidableEq

/-- One pass of `handleJoystick`'s navigation block (Browsing state,
chores nonempty, not in the confirmation dialog): if more than
`NAVIGATION_DELAY` ms have passed since the last counted move and the Y
axis is deflected, move the cursor (circularly) and reset the scroll
offset.  Returns the new state and whether a move was counted. -/
def navStep (numChores tMillis joyY : Nat) (s : NavState) : NavState × Bool :=
  if numChores ≠ 0 then
    if NAVIGATION_DELAY < tMillis - s.lastNavigationTime then
      if joyY < JOYSTICK_CENTER_LOW then
        ({ currentChoreIndex := (s.currentChoreIndex + 1) % numChores,
           scrollPosition := 0, lastNavigationTime := tMillis }, true)
      else if JOYSTICK_CENTER_HIGH < joyY then
        ({ currentChoreIndex := (s.currentChoreIndex + numChores - 1) % numChores,
           scrollPosition := 0, lastNavigationTime := tMillis }, true)
      else (s, false)
    else (s, false)
  else (s, false)

/-- Run the navigation block over a sequence of loop iterations, each
sampling `(millis, joyY)`; counts the moves. -/
def navRun (numChores : Nat) : List (Nat × Nat) → NavState → NavState × Nat
  | [], s => (s, 0)
  | sample :: rest, s =>
    let r := navStep numChores sample.1 sample.2 s
    let r2 := navRun numChores rest r.1
    (r2.1, (if r.2 then 1 else 0) + r2.2)

/-- A joystick sample is in the dead-zone ("center"). -/
def inDeadZone (joyY : Nat) : Prop :=
  JOYSTICK_CENTER_LOW ≤ joyY ∧ joyY ≤ JOYSTICK_CENTER_HIGH

/-! ### Calendar arithmetic lemmas -/

theorem yearLen_ge (y : Nat) : 365 ≤ yearLen y := by
  unfold yearLen; split <;> omega

theorem daysUpTo_succ (y : Nat) : daysUpTo (y + 1) = daysUpTo y + yearLen y := rfl

theorem cumMonthLen_succ (leap : Bool) (m : Nat) :
    cumMonthLen leap (m + 1) = cumMonthLen leap m + monthLen leap m := rfl

theorem cumMonthLen_twelve (leap : Bool) :
    cumMonthLen leap 12 = if leap then 366 else 365 := by
  cases leap <;> rfl

theorem breakYearAux_spec : ∀ fuel days y, days ≤ fuel →
    (breakYearAux fuel days y).2 < yearLen (breakYearAux fuel days y).1 ∧
    daysUpTo y + days = daysUpTo (breakYearAux fuel days y).1 + (breakYearAux fuel days y).2 := by
  intro fuel
  induction fuel with
  | zero =>
    intro days y h
    have hd : days = 0 := Nat.le_zero.mp h
    subst hd
    refine ⟨?_, rfl⟩
    have h365 := yearLen_ge y
    show (0 : Nat) < yearLen y
    omega
  | succ fuel ih =>
    intro days y h
    by_cases hlt : days < yearLen y
    · simp only [breakYearAux]
      rw [if_pos hlt]
      exact ⟨hlt, rfl⟩
    · push_neg at hlt
      have h365 := yearLen_ge y
      have hrec := ih (days - yearLen y) (y + 1) (by omega)
      simp only [breakYearAux]
      rw [if_neg (by omega)]
      refine ⟨hrec.1, ?_⟩
      have h2 := hrec.2
      rw [daysUpTo_succ] at h2
      omega

theorem breakMonthAux_spec (leap : Bool) : ∀ fuel m time,
    cumMonthLen leap m + time < cumMonthLen leap (m + fuel) →
    (breakMonthAux leap fuel m time).2 < monthLen leap (breakMonthAux leap fuel m time).1 ∧
    cumMonthLen leap m + time
      = cumMonthLen leap (breakMonthAux leap fuel m time).1 + (breakMonthAux leap fuel m time).2 ∧
    (breakMonthAux leap fuel m time).1 < m + fuel := by
  intro fuel
  induction fuel with
  | zero =>
    intro m time h
    rw [Nat.add_zero] at h
    omega
  | succ fuel ih =>
    intro m time h
    by_cases hlt : time < monthLen leap m
    · simp only [breakMonthAux]
      rw [if_pos hlt]
      exact ⟨hlt, rfl, by omega⟩
    · push_neg at hlt
      have hidx : m + (fuel + 1) = m + 1 + fuel := by omega
      rw [hidx] at h
      have hsucc : cumMonthLen leap (m + 1) = cumMonthLen leap m + monthLen leap m :=
        cumMonthLen_succ leap m
      obtain ⟨hr1, hr2, hr3⟩ := ih (m + 1) (time - monthLen leap m) (by omega)
      simp only [breakMonthAux]
      rw [if_neg (by omega)]
      exact ⟨hr1, by omega, by omega⟩

theorem daysUpTo_eq (y : Nat) : daysUpTo y = y * 365 + leapDaysBefore y := by
  induction y with
  | zero => rfl
  | succ y ih =>
    rw [daysUpTo_succ, ih]
    show _ = _ + leapDaysBefore (y + 1)
    by_cases h : leapYear y = true <;>
      simp [leapDaysBefore, yearLen, h] <;> omega

theorem makeTime_eq (tm : TmElements) :
    makeTime tm
      = (daysUpTo tm.year + cumMonthLen (leapYear tm.year) (tm.month - 1) + (tm.day - 1))
          * SECS_PER_DAY
        + tm.hour * 3600 + tm.minute * 60 + tm.second := by
  unfold makeTime
  rw [daysUpTo_eq]
  unfold SECS_PER_DAY
  omega

theorem breakTime_spec (t : Nat) :
    t = (daysUpTo (breakTime t).year
          + cumMonthLen (leapYear (breakTime t).year) ((breakTime t).month - 1)
          + ((breakTime t).day - 1)) * SECS_PER_DAY
        + (breakTime t).hour * 3600 + (breakTime t).minute * 60 + (breakTime t).second
    ∧ (breakTime t).day - 1 < monthLen (leapYear (breakTime t).year) ((breakTime t).month - 1)
    ∧ 1 ≤ (breakTime t).month ∧ (breakTime t).month ≤ 12
    ∧ 1 ≤ (breakTime t).day
    ∧ (breakTime t).hour < 24 ∧ (breakTime t).minute < 60 ∧ (breakTime t).second < 60 := by
  obtain ⟨hy1, hy2⟩ :=
    breakYearAux_spec (t / 60 / 60 / 24) (t / 60 / 60 / 24) 0 le_rfl
  have hcum12 :
      cumMonthLen (leapYear (breakYearAux (t / 60 / 60 / 24) (t / 60 / 60 / 24) 0).1) 12
        = yearLen (breakYearAux (t / 60 / 60 / 24) (t / 60 / 60 / 24) 0).1 := by
    rw [cumMonthLen_twelve]
    unfold yearLen
    rfl
  obtain ⟨hm1, hm2, hm3⟩ :=
    breakMonthAux_spec (leapYear (breakYearAux (t / 60 / 60 / 24) (t / 60 / 60 / 24) 0).1)
      12 0 (breakYearAux (t / 60 / 60 / 24) (t / 60 / 60 / 24) 0).2
      (by
        show cumMonthLen _ 0 + _ < cumMonthLen _ (0 + 12)
        rw [Nat.zero_add, hcum12]
        simpa [cumMonthLen] using hy1)
  have hbt : breakTime t =
      { second := t % 60, minute := t / 60 % 60, hour := t / 60 / 60 % 24,
        wday := (t / 60 / 60 / 24 + 4) % 7 + 1,
        day := (breakMonthAux
            (leapYear (breakYearAux (t / 60 / 60 / 24) (t / 60 / 60 / 24) 0).1) 12 0
            (breakYearAux (t / 60 / 60 / 24) (t / 60 / 60 / 24) 0).2).2 + 1,
        month := (breakMonthAux
            (leapYear (breakYearAux (t / 60 / 60 / 24) (t / 60 / 60 / 24) 0).1) 12 0
            (breakYearAux (t / 60 / 60 / 24) (t / 60 / 60 / 24) 0).2).1 + 1,
        year := (breakYearAux (t / 60 / 60 / 24) (t / 60 / 60 / 24) 0).1 } := rfl
  rw [hbt]
  simp only [Nat.add_sub_cancel]
  simp only [cumMonthLen] at hm2
  simp only [daysUpTo] at hy2
  unfold SECS_PER_DAY
  refine ⟨?_, hm1, by omega, by omega, by omega, by omega, by omega, by omega⟩
  omega

theorem adjustToMonday_ge : ∀ fuel t, t ≤ adjustToMonday fuel t := by
  intro fuel
  induction fuel with
  | zero => intro t; exact le_rfl
  | succ fuel ih =>
    intro t
    simp only [adjustToMonday]
    split
    · exact le_rfl
    · exact le_trans (by omega) (ih (t + 24 * 3600))

/-! ### Recurrence lemmas -/

theorem calculateNextDueDate_fields (n : Nat) (c : Chore) :
    (calculateNextDueDate n c).name = c.name
    ∧ (calculateNextDueDate n c).person = c.person
    ∧ (calculateNextDueDate n c).frequency = c.frequency
    ∧ (calculateNextDueDate n c).completed = c.completed
    ∧ (calculateNextDueDate n c).lastCompleted = c.lastCompleted
    ∧ (calculateNextDueDate n c).pointsAwarded = c.pointsAwarded := by
  unfold calculateNextDueDate
  repeat' split
  all_goals exact ⟨rfl, rfl, rfl, rfl, rfl, rfl⟩

theorem calculateNextDueDate_pure (n1 n2 : Nat) (c : Chore) (h : c.lastCompleted ≠ 0) :
    calculateNextDueDate n1 c = calculateNextDueDate n2 c := by
  simp only [calculateNextDueDate, if_neg h]

theorem calculateNextDueDate_strict (n : Nat) (c : Chore) (h0 : c.lastCompleted ≠ 0)
    (hf : c.frequency = "daily" ∨ c.frequency = "weekly" ∨ c.frequency = "monthly") :
    c.lastCompleted < (calculateNextDueDate n c).nextDue := by
  obtain ⟨heq, hday, hmge, hmle, hdge, hhour, hmin, hsec⟩ := breakTime_spec c.lastCompleted
  unfold calculateNextDueDate
  rw [if_neg h0]
  rcases hf with hf | hf | hf
  · rw [hf, if_pos rfl]
    show c.lastCompleted <
      makeTime { breakTime c.lastCompleted with hour := 0, minute := 0, second := 0 } + 24 * 3600
    rw [makeTime_eq]
    dsimp only
    simp only [SECS_PER_DAY] at heq ⊢
    omega
  · rw [hf, if_neg (by decide), if_pos rfl]
    have hadj := adjustToMonday_ge 7 (c.lastCompleted + 7 * 24 * 3600)
    show c.lastCompleted < adjustToMonday 7 (c.lastCompleted + 7 * 24 * 3600)
    omega
  · rw [hf, if_neg (by decide), if_neg (by decide), if_pos rfl]
    by_cases h12 : 12 < (breakTime c.lastCompleted).month + 1
    · have hmth : (breakTime c.lastCompleted).month = 12 := by omega
      rw [if_pos h12]
      show c.lastCompleted <
        makeTime { breakTime c.lastCompleted with
          day := 1, month := 1, year := (breakTime c.lastCompleted).year + 1 }
      rw [makeTime_eq]
      dsimp only
      have e1 : cumMonthLen (leapYear (breakTime c.lastCompleted).year)
          ((breakTime c.lastCompleted).month - 1)
          = cumMonthLen (leapYear (breakTime c.lastCompleted).year) 11 := by rw [hmth]
      have e2 : cumMonthLen (leapYear (breakTime c.lastCompleted).year) 12
          = cumMonthLen (leapYear (breakTime c.lastCompleted).year) 11
            + monthLen (leapYear (breakTime c.lastCompleted).year) 11 :=
        cumMonthLen_succ _ 11
      have e3 : cumMonthLen (leapYear (breakTime c.lastCompleted).year) 12
          = yearLen (breakTime c.lastCompleted).year := by
        rw [cumMonthLen_twelve]; rfl
      have e4 : daysUpTo ((breakTime c.lastCompleted).year + 1)
          = daysUpTo (breakTime c.lastCompleted).year
            + yearLen (breakTime c.lastCompleted).year := daysUpTo_succ _
      have e5 : cumMonthLen (leapYear ((breakTime c.lastCompleted).year + 1)) (1 - 1) = 0 := rfl
      have e6 : monthLen (leapYear (breakTime c.lastCompleted).year)
          ((breakTime c.lastCompleted).month - 1)
          = monthLen (leapYear (breakTime c.lastCompleted).year) 11 := by rw [hmth]
      rw [e5]
      rw [e1] at heq
      rw [e6] at hday
      simp only [SECS_PER_DAY] at heq ⊢
      omega
    · rw [if_neg h12]
      show c.lastCompleted <
        makeTime { breakTime c.lastCompleted with
          day := 1, month := (breakTime c.lastCompleted).month + 1 }
      rw [makeTime_eq]
      dsimp only
      have hm1 : (breakTime c.lastCompleted).month - 1 + 1 = (breakTime c.lastCompleted).month := by
        omega
      have e1 : cumMonthLen (leapYear (breakTime c.lastCompleted).year)
          ((breakTime c.lastCompleted).month + 1 - 1)
          = cumMonthLen (leapYear (breakTime c.lastCompleted).year)
              ((breakTime c.lastCompleted).month - 1)
            + monthLen (leapYear (breakTime c.lastCompleted).year)
              ((breakTime c.lastCompleted).month - 1) := by
        rw [Nat.add_sub_cancel]
        conv_lhs => rw [← hm1]
        exact cumMonthLen_succ _ _
      rw [e1]
      simp only [SECS_PER_DAY] at heq ⊢
      omega

/-! ### Ledger helper lemmas -/

theorem getElem?_some_lt {α : Type} (l : List α) (i : Nat) (a : α) (h : l[i]? = some a) :
    i < l.length := by
  by_contra hh
  rw [List.getElem?_eq_none (by omega)] at h
  exact Option.noConfusion h

theorem pointsForFrequency_nonneg (f : String) : 0 ≤ pointsForFrequency f := by
  unfold pointsForFrequency DAILY_POINTS WEEKLY_POINTS MONTHLY_POINTS
  repeat' split
  all_goals decide

/-- Debiting right after crediting the same username restores the user
list, provided no one starts with negative points (the clamp at 0 cannot
fire). -/
theorem debitFirst_creditFirst (uname : String) (p : Int) :
    ∀ users : List User, (∀ u ∈ users, 0 ≤ u.points) →
    debitFirst uname p (creditFirst uname p users) = users := by
  intro users
  induction users with
  | nil => intro _; rfl
  | cons u rest ih =>
    intro hnn
    obtain ⟨un, pts⟩ := u
    have hu0 : (0 : Int) ≤ pts := hnn ⟨un, pts⟩ (by simp)
    by_cases hu : un = uname
    · have hcred : creditFirst uname p ({ username := un, points := pts } :: rest)
          = { username := un, points := pts + p } :: rest := by
        simp only [creditFirst]
        rw [if_pos hu]
      rw [hcred]
      have hdeb : debitFirst uname p ({ username := un, points := pts + p } :: rest)
          = { username := un,
              points := if pts + p - p < 0 then 0 else pts + p - p } :: rest := by
        simp only [debitFirst]
        rw [if_pos hu]
      rw [hdeb]
      rw [if_neg (by omega)]
      have hpts : pts + p - p = pts := by ring
      rw [hpts]
    · simp only [creditFirst, debitFirst, if_neg hu]
      rw [ih (fun v hv => hnn v (by simp [hv]))]

theorem confirmCompleteChore_eq (n : Nat) (i : Nat) (s : AppState) (c : Chore)
    (hc : s.chores[i]? = some c) :
    confirmCompleteChore n i s =
      { s with
        chores := s.chores.set i (calculateNextDueDate n
          { c with completed := true, pointsAwarded := true, lastCompleted := n }),
        users := if c.pointsAwarded then s.users
                 else creditFirst c.person (pointsForFrequency c.frequency) s.users } := by
  unfold confirmCompleteChore markCompleteChore
  rw [hc]

theorem toggleChore_complete_eq (n : Nat) (i : Nat) (s : AppState) (c : Chore)
    (hc : s.chores[i]? = some c) (hnc : c.completed = false) :
    toggleChore n i s =
      { s with
        chores := s.chores.set i (calculateNextDueDate n
          { c with completed := true, pointsAwarded := true, lastCompleted := n }),
        users := if c.pointsAwarded then s.users
                 else creditFirst c.person (pointsForFrequency c.frequency) s.users } := by
  unfold toggleChore markCompleteChore
  rw [hc]
  dsimp only
  rw [hnc]
  rfl

theorem toggleChore_incomplete_eq (n : Nat) (i : Nat) (s : AppState) (c : Chore)
    (hc : s.chores[i]? = some c) (hcc : c.completed = true) :
    toggleChore n i s =
      { s with
        chores := s.chores.set i { c with pointsAwarded := false, completed := false },
        users := if c.pointsAwarded
                 then debitFirst c.person (pointsForFrequency c.frequency) s.users
                 else s.users } := by
  unfold toggleChore markIncompleteChore
  rw [hc]
  dsimp only
  rw [hcc]
  rfl

/-! ### Claim C1 -/

/-- C1: marking an incomplete chore (with no pending award, per the data
model invariant `pointsAwarded ⇒ completed`) complete credits the
assignee's first matching user exactly once; invoking the mark-complete
path again without an intervening sweep changes no user's points, because
the award is gated by `pointsAwarded`. -/
theorem completeTwice_credits_once (n1 n2 i : Nat) (s : AppState) (c : Chore)
    (hc : s.chores[i]? = some c) (hpa : c.pointsAwarded = false) :
    (confirmCompleteChore n1 i s).users
      = creditFirst c.person (pointsForFrequency c.frequency) s.users
    ∧ (confirmCompleteChore n2 i (confirmCompleteChore n1 i s)).users
      = (confirmCompleteChore n1 i s).users := by
  have hlen := getElem?_some_lt _ _ _ hc
  have h1 := confirmCompleteChore_eq n1 i s c hc
  constructor
  · rw [h1]
    dsimp only
    rw [hpa]
    rfl
  · have hc2 : (confirmCompleteChore n1 i s).chores[i]?
        = some (calculateNextDueDate n1
            { c with completed := true, pointsAwarded := true, lastCompleted := n1 }) := by
      rw [h1]
      dsimp only
      simp [List.getElem?_set_self, hlen]
    have h2 := confirmCompleteChore_eq n2 i _ _ hc2
    rw [h2]
    dsimp only
    have hpa2 : (calculateNextDueDate n1
        { c with completed := true, pointsAwarded := true, lastCompleted := n1 }).pointsAwarded
          = true :=
      (calculateNextDueDate_fields n1 _).2.2.2.2.2.trans rfl
    rw [hpa2]
    rfl

/-- C1 witness: a concrete two-in-a-row completion. -/
theorem completeTwice_credits_once_witness :
    (confirmCompleteChore 9 0 (confirmCompleteChore 5 0
        { chores := [{
            name := "Dishes", person := "alice", frequency := "daily",
            completed := false, lastCompleted := 0, nextDue := 0, pointsAwarded := false }],
          users := [{ username := "alice", points := 3 }],
          currentChoreIndex := 0 })).users
      = (confirmCompleteChore 5 0
        { chores := [{
            name := "Dishes", person := "alice", frequency := "daily",
            completed := false, lastCompleted := 0, nextDue := 0, pointsAwarded := false }],
          users := [{ username := "alice", points := 3 }],
          currentChoreIndex := 0 }).users :=
  (completeTwice_credits_once 5 9 0 _
    { name := "Dishes", person := "alice", frequency := "daily",
      completed := false, lastCompleted := 0, nextDue := 0, pointsAwarded := false }
    (by rfl) (by rfl)).2

/-! ### Claim C2 -/

/-- C2: completing an incomplete chore (no pending award, per the data
model invariant) and then immediately marking it incomplete restores the
whole user list — in particular the assignee's balance — to its pre-award
value; the debit equals the credit and, since nobody starts negative
(the data model requires `points ≥ 0`), the clamp at 0 never fires. -/
theorem completeThenUncomplete_restores_points (n1 n2 i : Nat) (s : AppState) (c : Chore)
    (hc : s.chores[i]? = some c) (hnc : c.completed = false)
    (hpa : c.pointsAwarded = false) (hnn : ∀ u ∈ s.users, 0 ≤ u.points) :
    (toggleChore n2 i (toggleChore n1 i s)).users = s.users := by
  have hlen := getElem?_some_lt _ _ _ hc
  have h1 := toggleChore_complete_eq n1 i s c hc hnc
  have hfld := calculateNextDueDate_fields n1
    { c with completed := true, pointsAwarded := true, lastCompleted := n1 }
  have hc2 : (toggleChore n1 i s).chores[i]?
      = some (calculateNextDueDate n1
          { c with completed := true, pointsAwarded := true, lastCompleted := n1 }) := by
    rw [h1]
    dsimp only
    simp [List.getElem?_set_self, hlen]
  have h2 := toggleChore_incomplete_eq n2 i _ _ hc2 (hfld.2.2.2.1.trans rfl)
  rw [h2]
  dsimp only
  rw [hfld.2.2.2.2.2.trans rfl, hfld.2.1.trans rfl, hfld.2.2.1.trans rfl]
  have husers : (toggleChore n1 i s).users
      = creditFirst c.person (pointsForFrequency c.frequency) s.users := by
    rw [h1]
    dsimp only
    rw [hpa]
    rfl
  rw [husers]
  exact debitFirst_creditFirst c.person (pointsForFrequency c.frequency) s.users hnn

/-- C2 witness: a concrete complete/uncomplete round trip. -/
theorem completeThenUncomplete_restores_points_witness :
    (toggleChore 8 0 (toggleChore 5 0
        { chores := [{
            name := "Trash", person := "bob", frequency := "weekly",
            completed := false, lastCompleted := 0, nextDue := 0, pointsAwarded := false }],
          users := [{ username := "bob", points := 2 }],
          currentChoreIndex := 0 })).users
      = [{ username := "bob", points := 2 }] :=
  completeThenUncomplete_restores_points 5 8 0 _
    { name := "Trash", person := "bob", frequency := "weekly",
      completed := false, lastCompleted := 0, nextDue := 0, pointsAwarded := false }
    (by rfl) (by rfl) (by rfl) (by decide)

/-! ### Claim C3 -/

/-- C3 counterexample: for a never-completed chore (`lastCompleted = 0`,
the "never" value), `calculateNextDueDate` returns the current time, so
the result depends on `now` — it is not a function of `lastCompletedAt`
and frequency alone — and with `now = 0` it is not strictly later than
`lastCompletedAt`. -/
theorem nextDue_not_pure_when_never :
    (calculateNextDueDate 0
        { name := "a", person := "b", frequency := "daily", completed := false,
          lastCompleted := 0, nextDue := 77, pointsAwarded := false }).nextDue
      ≠ (calculateNextDueDate 1
        { name := "a", person := "b", frequency := "daily", completed := false,
          lastCompleted := 0, nextDue := 77, pointsAwarded := false }).nextDue
    ∧ ¬ ({
          name := "a", person := "b", frequency := "daily", completed := false,
          lastCompleted := 0, nextDue := 77, pointsAwarded := false } : Chore).lastCompleted
        < (calculateNextDueDate 0
        { name := "a", person := "b", frequency := "daily", completed := false,
          lastCompleted := 0, nextDue := 77, pointsAwarded := false }).nextDue := by
  decide

/-- C3 (amended): for every frequency in {daily, weekly, monthly} and
every `lastCompletedAt` other than "never" (`lastCompleted ≠ 0`), the
computed `nextDue` is strictly later than `lastCompletedAt` and the whole
result is independent of the current time (a pure function of
`lastCompletedAt` and frequency); the "never" case instead yields the
current time. -/
theorem nextDue_strict_and_pure (n1 n2 : Nat) (c : Chore)
    (h0 : c.lastCompleted ≠ 0)
    (hf : c.frequency = "daily" ∨ c.frequency = "weekly" ∨ c.frequency = "monthly") :
    c.lastCompleted < (calculateNextDueDate n1 c).nextDue
    ∧ calculateNextDueDate n1 c = calculateNextDueDate n2 c :=
  ⟨calculateNextDueDate_strict n1 c h0 hf, calculateNextDueDate_pure n1 n2 c h0⟩

/-- C3 witness: a concrete weekly chore completed on Wed 2024-01-10. -/
theorem nextDue_strict_and_pure_witness :
    (1704844800 : Nat)
      < (calculateNextDueDate 0
          { name := "w", person := "p", frequency := "weekly", completed := true,
            lastCompleted := 1704844800, nextDue := 0, pointsAwarded := true }).nextDue
    ∧ calculateNextDueDate 0
          { name := "w", person := "p", frequency := "weekly", completed := true,
            lastCompleted := 1704844800, nextDue := 0, pointsAwarded := true }
        = calculateNextDueDate 12345
          { name := "w", person := "p", frequency := "weekly", completed := true,
            lastCompleted := 1704844800, nextDue := 0, pointsAwarded := true } :=
  nextDue_strict_and_pure 0 12345
    { name := "w", person := "p", frequency := "weekly", completed := true,
      lastCompleted := 1704844800, nextDue := 0, pointsAwarded := true }
    (by decide) (Or.inr (Or.inl rfl))

/-! ### Claim C4 -/

/-- C4 counterexample: for a weekly chore last completed on Wednesday
2024-01-10 00:00 UTC (epoch 1704844800, TimeLib weekday 4), the code does
not produce Monday 2024-01-15 (epoch 1705276800, weekday 2): it first
adds 7 days (landing on Wednesday 2024-01-17) and only then advances to a
Monday. -/
theorem weekly_jan10_not_jan15 :
    weekday 1704844800 = 4
    ∧ weekday 1705276800 = 2
    ∧ (calculateNextDueDate 0
        { name := "w", person := "p", frequency := "weekly", completed := true,
          lastCompleted := 1704844800, nextDue := 0, pointsAwarded := true }).nextDue
      ≠ 1705276800 := by
  decide

/-- C4 (amended): for a weekly chore last completed on Wednesday
2024-01-10, the computed `nextDue` is Monday 2024-01-22 00:00 UTC
(epoch 1705881600, TimeLib weekday 2): the first Monday on or after
`lastCompleted + 7 days`. -/
theorem weekly_jan10_is_jan22 :
    (calculateNextDueDate 0
        { name := "w", person := "p", frequency := "weekly", completed := true,
          lastCompleted := 1704844800, nextDue := 0, pointsAwarded := true }).nextDue
      = 1705881600
    ∧ weekday 1705881600 = 2 := by
  decide

/-! ### Claim C5 -/

theorem updateChoreStatus_length (nowT : Nat) :
    ∀ cs : List Chore, (updateChoreStatus nowT cs).1.length = cs.length := by
  intro cs
  induction cs with
  | nil => rfl
  | cons c rest ih =>
    simp only [updateChoreStatus]
    split <;> simp [ih]

theorem updateChoreStatus_getElem (nowT : Nat) :
    ∀ (cs : List Chore) (i : Nat),
    (updateChoreStatus nowT cs).1[i]?
      = (cs[i]?).map (fun c => if c.completed = true ∧ c.nextDue ≤ nowT
          then { c with completed := false, pointsAwarded := false } else c) := by
  intro cs
  induction cs with
  | nil => intro i; simp [updateChoreStatus]
  | cons c rest ih =>
    intro i
    by_cases hcond : c.completed = true ∧ c.nextDue ≤ nowT
    · have hu : updateChoreStatus nowT (c :: rest)
          = ({ c with completed := false, pointsAwarded := false }
              :: (updateChoreStatus nowT rest).1, true) := by
        simp only [updateChoreStatus]
        rw [if_pos hcond]
      rw [hu]
      cases i with
      | zero => simp [hcond]
      | succ i => simp [ih i]
    · have hu : updateChoreStatus nowT (c :: rest)
          = (c :: (updateChoreStatus nowT rest).1, (updateChoreStatus nowT rest).2) := by
        simp only [updateChoreStatus]
        rw [if_neg hcond]
      rw [hu]
      cases i with
      | zero => simp [hcond]
      | succ i => simp [ih i]

theorem updateChoreStatus_changed (nowT : Nat) :
    ∀ cs : List Chore,
    ((updateChoreStatus nowT cs).2 = true
      ↔ ∃ c ∈ cs, c.completed = true ∧ c.nextDue ≤ nowT) := by
  intro cs
  induction cs with
  | nil => simp [updateChoreStatus]
  | cons c rest ih =>
    by_cases hcond : c.completed = true ∧ c.nextDue ≤ nowT
    · have hu : (updateChoreStatus nowT (c :: rest)).2 = true := by
        simp only [updateChoreStatus]
        rw [if_pos hcond]
      rw [hu]
      simp only [true_iff]
      exact ⟨c, by simp, hcond⟩
    · have hu : (updateChoreStatus nowT (c :: rest)).2 = (updateChoreStatus nowT rest).2 := by
        simp only [updateChoreStatus]
        rw [if_neg hcond]
      rw [hu, ih]
      constructor
      · rintro ⟨d, hm, hp⟩
        exact ⟨d, by simp [hm], hp⟩
      · rintro ⟨d, hm, hp⟩
        rcases List.mem_cons.mp hm with rfl | hm'
        · exact absurd hp hcond
        · exact ⟨d, hm', hp⟩

/-- C5: the sweep resets (`completed := false`, `pointsAwarded := false`)
exactly the chores with `completed ∧ now ≥ nextDue`, leaving every other
chore — in particular every already-incomplete one — and every other
field untouched, and reports a change exactly when at least one chore was
reset. -/
theorem sweep_resets_exactly_due (nowT : Nat) (cs : List Chore) (i : Nat) (c : Chore) :
    (updateChoreStatus nowT cs).1.length = cs.length
    ∧ (cs[i]? = some c → c.completed = true ∧ c.nextDue ≤ nowT →
        (updateChoreStatus nowT cs).1[i]?
          = some { c with completed := false, pointsAwarded := false })
    ∧ (cs[i]? = some c → ¬(c.completed = true ∧ c.nextDue ≤ nowT) →
        (updateChoreStatus nowT cs).1[i]? = some c)
    ∧ ((updateChoreStatus nowT cs).2 = true
        ↔ ∃ d ∈ cs, d.completed = true ∧ d.nextDue ≤ nowT) := by
  refine ⟨updateChoreStatus_length nowT cs, ?_, ?_, updateChoreStatus_changed nowT cs⟩
  · intro hm hcond
    rw [updateChoreStatus_getElem nowT cs i, hm]
    simp [hcond]
  · intro hm hcond
    rw [updateChoreStatus_getElem nowT cs i, hm]
    simp [hcond]

/-- C5 witness: a due completed chore is reset, an incomplete one is left
alone. -/
theorem sweep_resets_exactly_due_witness :
    (updateChoreStatus 100 [{
        name := "a", person := "p", frequency := "daily",
        completed := true, lastCompleted := 1, nextDue := 50, pointsAwarded := true },
      { name := "b", person := "q", frequency := "weekly",
        completed := false, lastCompleted := 0, nextDue := 999, pointsAwarded := false }]).1[0]?
      = some { name := "a", person := "p", frequency := "daily",
               completed := false, lastCompleted := 1, nextDue := 50, pointsAwarded := false }
    ∧ (updateChoreStatus 100 [{
        name := "a", person := "p", frequency := "daily",
        completed := true, lastCompleted := 1, nextDue := 50, pointsAwarded := true },
      { name := "b", person := "q", frequency := "weekly",
        completed := false, lastCompleted := 0, nextDue := 999, pointsAwarded := false }]).1[1]?
      = some { name := "b", person := "q", frequency := "weekly",
               completed := false, lastCompleted := 0, nextDue := 999, pointsAwarded := false } :=
  ⟨(sweep_resets_exactly_due 100 _ 0
      { name := "a", person := "p", frequency := "daily",
        completed := true, lastCompleted := 1, nextDue := 50, pointsAwarded := true }).2.1
      (by rfl) (by decide),
   (sweep_resets_exactly_due 100 _ 1
      { name := "b", person := "q", frequency := "weekly",
        completed := false, lastCompleted := 0, nextDue := 999, pointsAwarded := false }).2.2.1
      (by rfl) (by decide)⟩

/-! ### Claim C6 -/

theorem ledStatus_noOverdue_false (nowT : Nat) (cs : List Chore)
    (hnone : ∀ c ∈ cs, isChoreOverdue nowT c = false) :
    ¬ ((cs.any fun c => !c.completed && isChoreOverdue nowT c) = true) := by
  simp only [List.any_eq_true]
  rintro ⟨d, hm, hd⟩
  rcases (Bool.and_eq_true _ _).mp hd with ⟨_, h2⟩
  rw [hnone d hm] at h2
  exact Bool.noConfusion h2

/-- C6: the status indicator is exactly one of the four signals, chosen
with offline dominating everything, then overdue, then all-clear exactly
on an empty or fully completed chore set, then pending.  (The code tests
the all-clear condition before the overdue one, but an overdue chore is
necessarily incomplete, so no chore set satisfies both conditions and the
priority order stated by the spec coincides with the code's branch
order.) -/
theorem ledStatus_priority (wifi : Bool) (nowT : Nat) (cs : List Chore) :
    (wifi = false → updateLEDStatus wifi nowT cs = Indicator.offline)
    ∧ (wifi = true → (∃ c ∈ cs, isChoreOverdue nowT c = true) →
        updateLEDStatus wifi nowT cs = Indicator.overdue)
    ∧ (wifi = true → (∀ c ∈ cs, isChoreOverdue nowT c = false) →
        (updateLEDStatus wifi nowT cs = Indicator.allClear
          ↔ (cs = [] ∨ ∀ c ∈ cs, c.completed = true)))
    ∧ (wifi = true → (∀ c ∈ cs, isChoreOverdue nowT c = false) →
        ¬(cs = [] ∨ ∀ c ∈ cs, c.completed = true) →
        updateLEDStatus wifi nowT cs = Indicator.pending) := by
  refine ⟨?_, ?_, ?_, ?_⟩
  · intro hw
    subst hw
    rfl
  · intro hw hover
    subst hw
    rcases hover with ⟨c, hm, hc⟩
    have hcomp : c.completed = false := by
      unfold isChoreOverdue at hc
      rcases (Bool.and_eq_true _ _).mp hc with ⟨h1, _⟩
      simpa using h1
    have hne : ¬ ((cs.isEmpty || cs.all fun c => c.completed) = true) := by
      simp only [Bool.or_eq_true, List.isEmpty_eq_true, List.all_eq_true, not_or]
      constructor
      · intro he
        subst he
        simp at hm
      · intro hall
        have h2 := hall c hm
        rw [hcomp] at h2
        exact Bool.noConfusion h2
    have hany : (cs.any fun c => !c.completed && isChoreOverdue nowT c) = true := by
      simp only [List.any_eq_true]
      exact ⟨c, hm, by rw [hcomp, hc]; rfl⟩
    simp only [updateLEDStatus]
    rw [if_neg (by simp), if_neg hne, if_pos hany]
  · intro hw hnone
    subst hw
    have hany := ledStatus_noOverdue_false nowT cs hnone
    by_cases hcond : (cs.isEmpty || cs.all fun c => c.completed) = true
    · simp only [updateLEDStatus]
      rw [if_neg (by simp), if_pos hcond]
      refine ⟨fun _ => ?_, fun _ => rfl⟩
      rcases (Bool.or_eq_true _ _).mp hcond with he | ha
      · exact Or.inl (by simpa using he)
      · refine Or.inr fun d hm => ?_
        simpa using List.all_eq_true.mp ha d hm
    · simp only [updateLEDStatus]
      rw [if_neg (by simp), if_neg hcond, if_neg hany]
      constructor
      · intro h
        exact Indicator.noConfusion h
      · intro h
        exfalso
        apply hcond
        rcases h with rfl | hall
        · rfl
        · simp only [Bool.or_eq_true, List.all_eq_true]
          exact Or.inr fun d hm => by rw [hall d hm]
  · intro hw hnone hnc
    subst hw
    have hany := ledStatus_noOverdue_false nowT cs hnone
    have hcond : ¬ ((cs.isEmpty || cs.all fun c => c.completed) = true) := by
      intro hc
      apply hnc
      rcases (Bool.or_eq_true _ _).mp hc with he | ha
      · exact Or.inl (by simpa using he)
      · exact Or.inr fun d hm => by simpa using List.all_eq_true.mp ha d hm
    simp only [updateLEDStatus]
    rw [if_neg (by simp), if_neg hcond, if_neg hany]

/-- C6 witness: each of the four branches hit at a concrete input. -/
theorem ledStatus_priority_witness :
    updateLEDStatus false 0 [] = Indicator.offline
    ∧ updateLEDStatus true 100 [{
        name := "a", person := "p", frequency := "daily",
        completed := false, lastCompleted := 1, nextDue := 50, pointsAwarded := false }]
      = Indicator.overdue
    ∧ (updateLEDStatus true 0 ([] : List Chore) = Indicator.allClear ↔ True)
    ∧ updateLEDStatus true 10 [{
        name := "a", person := "p", frequency := "daily",
        completed := false, lastCompleted := 1, nextDue := 50, pointsAwarded := false }]
      = Indicator.pending :=
  ⟨(ledStatus_priority false 0 []).1 rfl,
   (ledStatus_priority true 100 _).2.1 rfl
     ⟨{ name := "a", person := "p", frequency := "daily",
        completed := false, lastCompleted := 1, nextDue := 50, pointsAwarded := false },
      by simp, by decide⟩,
   ((ledStatus_priority true 0 []).2.2.1 rfl (by simp)).trans
     (iff_true_intro (Or.inl rfl)),
   (ledStatus_priority true 10 _).2.2.2 rfl (by decide)
     (by
       rintro (h | h)
       · exact List.noConfusion h
       · have h2 := h {
           name := "a", person := "p", frequency := "daily",
           completed := false, lastCompleted := 1, nextDue := 50, pointsAwarded := false }
           (by simp)
         exact Bool.noConfusion h2)⟩

/-! ### Claim C7 -/

/-- C7 counterexample: with two chores, a Y axis held fully deflected low
(reading 0, never inside the dead-zone) across two loop iterations 301 ms
apart produces two counted moves — one per elapsed `NAVIGATION_DELAY`
interval — even though the axis never returned to center between them.
The navigation block is level-triggered with a rate limit, not
edge-triggered. -/
theorem navHeld_two_moves_without_center :
    (navRun 2 [(301, 0), (602, 0)]
        { currentChoreIndex := 0, scrollPosition := 0, lastNavigationTime := 0 }).2 = 2
    ∧ ¬ inDeadZone 0 := by
  refine ⟨by decide, fun h => ?_⟩
  exact absurd h.1 (by decide)

/-- C7 (amended): in the Browsing state a move is counted at a sample
exactly when the chore list is nonempty, more than `NAVIGATION_DELAY`
milliseconds have elapsed since the last counted move, and the axis is
deflected past a threshold; a counted move restamps the timer, a
non-counted sample leaves the whole navigation state unchanged.  A held
deflection therefore produces one move per elapsed delay interval, with
no center-return required. -/
theorem navStep_level_triggered (n t y : Nat) (s : NavState) :
    ((navStep n t y s).2 = true
      ↔ (n ≠ 0 ∧ NAVIGATION_DELAY < t - s.lastNavigationTime
          ∧ (y < JOYSTICK_CENTER_LOW ∨ JOYSTICK_CENTER_HIGH < y)))
    ∧ ((navStep n t y s).2 = false → (navStep n t y s).1 = s)
    ∧ ((navStep n t y s).2 = true → (navStep n t y s).1.lastNavigationTime = t) := by
  unfold navStep
  by_cases hn : n ≠ 0
  · rw [if_pos hn]
    by_cases ht : NAVIGATION_DELAY < t - s.lastNavigationTime
    · rw [if_pos ht]
      by_cases hlow : y < JOYSTICK_CENTER_LOW
      · rw [if_pos hlow]
        exact ⟨by simp [hn, ht, hlow], by simp, fun _ => rfl⟩
      · rw [if_neg hlow]
        by_cases hhigh : JOYSTICK_CENTER_HIGH < y
        · rw [if_pos hhigh]
          exact ⟨by simp [hn, ht, hhigh], by simp, fun _ => rfl⟩
        · rw [if_neg hhigh]
          refine ⟨?_, fun _ => rfl, by simp⟩
          simp only [Bool.false_eq_true, false_iff]
          rintro ⟨_, _, h | h⟩
          · exact hlow h
          · exact hhigh h
    · rw [if_neg ht]
      refine ⟨?_, fun _ => rfl, by simp⟩
      simp only [Bool.false_eq_true, false_iff]
      rintro ⟨_, h, _⟩
      exact ht h
  · rw [if_neg hn]
    refine ⟨?_, fun _ => rfl, by simp⟩
    simp only [Bool.false_eq_true, false_iff]
    rintro ⟨h, _, _⟩
    exact hn h

/-- C7 witness: a counted and a non-counted concrete sample. -/
theorem navStep_level_triggered_witness :
    (navStep 2 301 0
        { currentChoreIndex := 0, scrollPosition := 3, lastNavigationTime := 0 }).2 = true
    ∧ (navStep 2 301 1500
        { currentChoreIndex := 0, scrollPosition := 3, lastNavigationTime := 0 }).1
      = { currentChoreIndex := 0, scrollPosition := 3, lastNavigationTime := 0 } :=
  ⟨(navStep_level_triggered 2 301 0 _).1.mpr (by decide),
   (navStep_level_triggered 2 301 1500 _).2.1 (by decide)⟩

/-! ### Claim C8 -/

/-- C8: for every index-taking request handler (toggle, delete, get and
update of chores and users), a missing `index` (or other missing required
parameter) and an out-of-range `index` both produce the error response
and leave the chores, the users and the selection cursor — the whole
state — unchanged. -/
theorem badRequest_no_state_change (s : AppState) (nowT : Nat) (i : Int)
    (nm pr fr un : String) :
    (handleToggleChore none nowT s = (s, Resp.error))
    ∧ (¬(0 ≤ i ∧ i < (s.chores.length : Int)) →
        handleToggleChore (some i) nowT s = (s, Resp.error))
    ∧ (handleDeleteChore none s = (s, Resp.error))
    ∧ (¬(0 ≤ i ∧ i < (s.chores.length : Int)) →
        handleDeleteChore (some i) s = (s, Resp.error))
    ∧ (handleGetChore none s = (s, Resp.error))
    ∧ (¬(0 ≤ i ∧ i < (s.chores.length : Int)) →
        handleGetChore (some i) s = (s, Resp.error))
    ∧ (handleUpdateChore none (some nm) (some pr) (some fr) nowT s = (s, Resp.error))
    ∧ (handleUpdateChore (some i) none (some pr) (some fr) nowT s = (s, Resp.error))
    ∧ (handleUpdateChore (some i) (some nm) none (some fr) nowT s = (s, Resp.error))
    ∧ (handleUpdateChore (some i) (some nm) (some pr) none nowT s = (s, Resp.error))
    ∧ (¬(0 ≤ i ∧ i < (s.chores.length : Int)) →
        handleUpdateChore (some i) (some nm) (some pr) (some fr) nowT s = (s, Resp.error))
    ∧ (handleDeleteUser none s = (s, Resp.error))
    ∧ (¬(0 ≤ i ∧ i < (s.users.length : Int)) →
        handleDeleteUser (some i) s = (s, Resp.error))
    ∧ (handleGetUser none s = (s, Resp.error))
    ∧ (¬(0 ≤ i ∧ i < (s.users.length : Int)) →
        handleGetUser (some i) s = (s, Resp.error))
    ∧ (handleUpdateUser none (some un) s = (s, Resp.error))
    ∧ (handleUpdateUser (some i) none s = (s, Resp.error))
    ∧ (¬(0 ≤ i ∧ i < (s.users.length : Int)) →
        handleUpdateUser (some i) (some un) s = (s, Resp.error)) := by
  refine ⟨rfl, ?_, rfl, ?_, rfl, ?_, rfl, rfl, rfl, rfl, ?_, rfl, ?_, rfl, ?_, rfl, rfl, ?_⟩
  all_goals intro h
  · simp only [handleToggleChore]
    rw [if_neg h]
  · simp only [handleDeleteChore]
    rw [if_neg h]
  · simp only [handleGetChore]
    rw [if_neg h]
  · simp only [handleUpdateChore]
    rw [if_neg h]
  · simp only [handleDeleteUser]
    rw [if_neg h]
  · simp only [handleGetUser]
    rw [if_neg h]
  · simp only [handleUpdateUser]
    rw [if_neg h]

/-- C8 witness: a concrete out-of-range toggle and an update-user with a
missing username. -/
theorem badRequest_no_state_change_witness :
    handleToggleChore (some 5) 0 { chores := [], users := [], currentChoreIndex := 0 }
      = ({ chores := [], users := [], currentChoreIndex := 0 }, Resp.error)
    ∧ handleUpdateUser (some 0) (some "zoe") { chores := [], users := [], currentChoreIndex := 0 }
      = ({ chores := [], users := [], currentChoreIndex := 0 }, Resp.error) := by
  obtain ⟨w1, w2, w3, w4, w5, w6, w7, w8, w9, w10, w11, w12, w13, w14, w15, w16, w17, w18⟩ :=
    badRequest_no_state_change
      { chores := [], users := [], currentChoreIndex := 0 } 0 5 "a" "b" "c" "zoe"
  refine ⟨w2 (by decide), ?_⟩
  · obtain ⟨v1, v2, v3, v4, v5, v6, v7, v8, v9, v10, v11, v12, v13, v14, v15, v16, v17, v18⟩ :=
      badRequest_no_state_change
        { chores := [], users := [], currentChoreIndex := 0 } 0 0 "a" "b" "c" "zoe"
    exact v18 (by decide)

/-! ### Claim C9 -/

theorem mem_of_getElem_some {α : Type} {l : List α} {i : Nat} {a : α}
    (h : l[i]? = some a) : a ∈ l := by
  have hl : i < l.length := getElem?_some_lt l i a h
  rw [List.getElem?_eq_getElem hl] at h
  rw [← Option.some.inj h]
  exact List.getElem_mem hl

theorem inv_of_mem_set {l : List Chore} {x : Chore} {i : Nat}
    (h : ∀ c ∈ l, c.pointsAwarded = true → c.completed = true)
    (hx : x.pointsAwarded = true → x.completed = true) :
    ∀ c ∈ l.set i x, c.pointsAwarded = true → c.completed = true := by
  intro c hc
  rcases List.mem_or_eq_of_mem_set hc with hm | he
  · exact h c hm
  · rw [he]
    exact hx

theorem inv_toggleChore (nowT i : Nat) (s : AppState)
    (h : ∀ c ∈ s.chores, c.pointsAwarded = true → c.completed = true) :
    ∀ c ∈ (toggleChore nowT i s).chores, c.pointsAwarded = true → c.completed = true := by
  cases hci : s.chores[i]? with
  | none =>
    have he : toggleChore nowT i s = s := by
      unfold toggleChore
      rw [hci]
    rw [he]
    exact h
  | some c =>
    by_cases hcc : c.completed = true
    · rw [toggleChore_incomplete_eq nowT i s c hci hcc]
      dsimp only
      refine inv_of_mem_set h ?_
      intro hpa
      exact Bool.noConfusion hpa
    · rw [toggleChore_complete_eq nowT i s c hci (Bool.eq_false_iff.mpr hcc)]
      dsimp only
      refine inv_of_mem_set h ?_
      intro _
      exact ((calculateNextDueDate_fields _ _).2.2.2.1).trans rfl

theorem inv_confirmCompleteChore (nowT i : Nat) (s : AppState)
    (h : ∀ c ∈ s.chores, c.pointsAwarded = true → c.completed = true) :
    ∀ c ∈ (confirmCompleteChore nowT i s).chores,
      c.pointsAwarded = true → c.completed = true := by
  cases hci : s.chores[i]? with
  | none =>
    have he : confirmCompleteChore nowT i s = s := by
      unfold confirmCompleteChore
      rw [hci]
    rw [he]
    exact h
  | some c =>
    rw [confirmCompleteChore_eq nowT i s c hci]
    dsimp only
    refine inv_of_mem_set h ?_
    intro _
    exact ((calculateNextDueDate_fields _ _).2.2.2.1).trans rfl

theorem inv_shortPressBrowse (i : Nat) (s : AppState)
    (h : ∀ c ∈ s.chores, c.pointsAwarded = true → c.completed = true) :
    ∀ c ∈ (shortPressBrowse i s).1.chores,
      c.pointsAwarded = true → c.completed = true := by
  cases hci : s.chores[i]? with
  | none =>
    have he : shortPressBrowse i s = (s, false) := by
      unfold shortPressBrowse
      rw [hci]
    rw [he]
    exact h
  | some c =>
    by_cases hcc : c.completed = true
    · have he : (shortPressBrowse i s).1.chores
          = s.chores.set i { c with pointsAwarded := false, completed := false } := by
        unfold shortPressBrowse markIncompleteChore
        rw [hci]
        dsimp only
        rw [hcc]
        rfl
      rw [he]
      refine inv_of_mem_set h ?_
      intro hpa
      exact Bool.noConfusion hpa
    · have he : shortPressBrowse i s = (s, true) := by
        unfold shortPressBrowse
        rw [hci]
        dsimp only
        rw [Bool.eq_false_iff.mpr hcc]
        rfl
      rw [he]
      exact h

theorem inv_updateChoreStatus (nowT : Nat) :
    ∀ cs : List Chore, (∀ c ∈ cs, c.pointsAwarded = true → c.completed = true) →
    ∀ c ∈ (updateChoreStatus nowT cs).1, c.pointsAwarded = true → c.completed = true := by
  intro cs
  induction cs with
  | nil =>
    intro _ c hc
    simp [updateChoreStatus] at hc
  | cons d rest ih =>
    intro h
    by_cases hcond : d.completed = true ∧ d.nextDue ≤ nowT
    · have he : (updateChoreStatus nowT (d :: rest)).1
          = { d with completed := false, pointsAwarded := false }
            :: (updateChoreStatus nowT rest).1 := by
        simp only [updateChoreStatus]
        rw [if_pos hcond]
      rw [he]
      intro c hc
      rcases List.mem_cons.mp hc with rfl | hm
      · intro hpa
        exact Bool.noConfusion hpa
      · exact ih (fun e he' => h e (List.mem_cons_of_mem d he')) c hm
    · have he : (updateChoreStatus nowT (d :: rest)).1
          = d :: (updateChoreStatus nowT rest).1 := by
        simp only [updateChoreStatus]
        rw [if_neg hcond]
      rw [he]
      intro c hc
      rcases List.mem_cons.mp hc with rfl | hm
      · exact h c (by simp)
      · exact ih (fun e he' => h e (List.mem_cons_of_mem d he')) c hm

theorem inv_handleToggleChore (oidx : Option Int) (nowT : Nat) (s : AppState)
    (h : ∀ c ∈ s.chores, c.pointsAwarded = true → c.completed = true) :
    ∀ c ∈ (handleToggleChore oidx nowT s).1.chores,
      c.pointsAwarded = true → c.completed = true := by
  rcases oidx with _ | i
  · exact h
  · by_cases hrange : 0 ≤ i ∧ i < (s.chores.length : Int)
    · have he : (handleToggleChore (some i) nowT s).1 = toggleChore nowT i.toNat s := by
        unfold handleToggleChore
        dsimp only
        rw [if_pos hrange]
      rw [he]
      exact inv_toggleChore nowT i.toNat s h
    · have he : handleToggleChore (some i) nowT s = (s, Resp.error) := by
        unfold handleToggleChore
        dsimp only
        rw [if_neg hrange]
      rw [he]
      exact h

theorem inv_handleAddChore (onm opr ofr : Option String) (nowT : Nat) (s : AppState)
    (h : ∀ c ∈ s.chores, c.pointsAwarded = true → c.completed = true) :
    ∀ c ∈ (handleAddChore onm opr ofr nowT s).1.chores,
      c.pointsAwarded = true → c.completed = true := by
  rcases onm with _ | nm <;> rcases opr with _ | pr <;> rcases ofr with _ | fr <;>
    try exact h
  intro c hc
  rcases List.mem_append.mp hc with hm | hm
  · exact h c hm
  · rw [List.mem_singleton.mp hm]
    intro hpa
    have hfa := (calculateNextDueDate_fields nowT
      { name := nm, person := pr, frequency := fr, completed := false,
        lastCompleted := 0, nextDue := 0, pointsAwarded := false }).2.2.2.2.2
    rw [hfa] at hpa
    exact Bool.noConfusion hpa

theorem inv_handleDeleteChore (oidx : Option Int) (s : AppState)
    (h : ∀ c ∈ s.chores, c.pointsAwarded = true → c.completed = true) :
    ∀ c ∈ (handleDeleteChore oidx s).1.chores,
      c.pointsAwarded = true → c.completed = true := by
  rcases oidx with _ | i
  · exact h
  · by_cases hrange : 0 ≤ i ∧ i < (s.chores.length : Int)
    · have he : (handleDeleteChore (some i) s).1.chores = s.chores.eraseIdx i.toNat := by
        unfold handleDeleteChore
        dsimp only
        rw [if_pos hrange]
      rw [he]
      intro c hc
      exact h c ((List.eraseIdx_sublist s.chores i.toNat).subset hc)
    · have he : handleDeleteChore (some i) s = (s, Resp.error) := by
        unfold handleDeleteChore
        dsimp only
        rw [if_neg hrange]
      rw [he]
      exact h

theorem inv_handleUpdateChore (oidx : Option Int) (onm opr ofr : Option String)
    (nowT : Nat) (s : AppState)
    (h : ∀ c ∈ s.chores, c.pointsAwarded = true → c.completed = true) :
    ∀ c ∈ (handleUpdateChore oidx onm opr ofr nowT s).1.chores,
      c.pointsAwarded = true → c.completed = true := by
  rcases oidx with _ | i <;> rcases onm with _ | nm <;> rcases opr with _ | pr <;>
    rcases ofr with _ | fr <;> try exact h
  by_cases hrange : 0 ≤ i ∧ i < (s.chores.length : Int)
  · cases hci : s.chores[i.toNat]? with
    | none =>
      have he : handleUpdateChore (some i) (some nm) (some pr) (some fr) nowT s
          = (s, Resp.error) := by
        unfold handleUpdateChore
        dsimp only
        rw [if_pos hrange, hci]
      rw [he]
      exact h
    | some c =>
      have hcm : c ∈ s.chores := mem_of_getElem_some hci
      have he : (handleUpdateChore (some i) (some nm) (some pr) (some fr) nowT s).1.chores
          = s.chores.set i.toNat
              (if ({ c with name := nm, person := pr, frequency := fr } : Chore).completed
                then calculateNextDueDate nowT { c with name := nm, person := pr, frequency := fr }
                else { c with name := nm, person := pr, frequency := fr }) := by
        unfold handleUpdateChore
        dsimp only
        rw [if_pos hrange, hci]
      rw [he]
      refine inv_of_mem_set h ?_
      by_cases hcc : ({ c with name := nm, person := pr, frequency := fr } : Chore).completed = true
      · rw [if_pos hcc]
        intro _
        exact ((calculateNextDueDate_fields _ _).2.2.2.1).trans hcc
      · rw [if_neg hcc]
        intro hpa
        exact h c hcm hpa
  · have he : handleUpdateChore (some i) (some nm) (some pr) (some fr) nowT s
        = (s, Resp.error) := by
      unfold handleUpdateChore
      dsimp only
      rw [if_neg hrange]
    rw [he]
    exact h

theorem handleDeleteUser_chores (oidx : Option Int) (s : AppState) :
    (handleDeleteUser oidx s).1.chores = s.chores := by
  unfold handleDeleteUser
  rcases oidx with _ | i
  · rfl
  · dsimp only
    split <;> rfl

theorem handleUpdateUser_chores (oidx : Option Int) (oun : Option String) (s : AppState) :
    (handleUpdateUser oidx oun s).1.chores = s.chores := by
  unfold handleUpdateUser
  rcases oidx with _ | i <;> rcases oun with _ | un
  · rfl
  · rfl
  · rfl
  · dsimp only
    split
    · split <;> rfl
    · rfl

/-- C9: the invariant `pointsAwarded ⇒ completed` is preserved by every
operation: web toggle, joystick confirm-complete and short-press
uncomplete, add/delete/update of a chore, the status sweep, and all the
user operations (which never touch a chore). -/
theorem pointsAwarded_implies_completed_invariant
    (s : AppState) (nowT i : Nat) (oidx : Option Int) (onm opr ofr oun : Option String)
    (h : ∀ c ∈ s.chores, c.pointsAwarded = true → c.completed = true) :
    (∀ c ∈ (toggleChore nowT i s).chores, c.pointsAwarded = true → c.completed = true)
    ∧ (∀ c ∈ (confirmCompleteChore nowT i s).chores,
        c.pointsAwarded = true → c.completed = true)
    ∧ (∀ c ∈ (shortPressBrowse i s).1.chores, c.pointsAwarded = true → c.completed = true)
    ∧ (∀ c ∈ (handleToggleChore oidx nowT s).1.chores,
        c.pointsAwarded = true → c.completed = true)
    ∧ (∀ c ∈ (handleAddChore onm opr ofr nowT s).1.chores,
        c.pointsAwarded = true → c.completed = true)
    ∧ (∀ c ∈ (handleDeleteChore oidx s).1.chores,
        c.pointsAwarded = true → c.completed = true)
    ∧ (∀ c ∈ (handleUpdateChore oidx onm opr ofr nowT s).1.chores,
        c.pointsAwarded = true → c.completed = true)
    ∧ (∀ c ∈ (updateChoreStatus nowT s.chores).1,
        c.pointsAwarded = true → c.completed = true)
    ∧ (∀ c ∈ (handleAddUser oun s).1.chores, c.pointsAwarded = true → c.completed = true)
    ∧ (∀ c ∈ (handleDeleteUser oidx s).1.chores,
        c.pointsAwarded = true → c.completed = true)
    ∧ (∀ c ∈ (handleUpdateUser oidx oun s).1.chores,
        c.pointsAwarded = true → c.completed = true)
    ∧ (∀ c ∈ (handleResetPoints s).1.chores, c.pointsAwarded = true → c.completed = true) := by
  refine ⟨inv_toggleChore nowT i s h, inv_confirmCompleteChore nowT i s h,
    inv_shortPressBrowse i s h, inv_handleToggleChore oidx nowT s h,
    inv_handleAddChore onm opr ofr nowT s h, inv_handleDeleteChore oidx s h,
    inv_handleUpdateChore oidx onm opr ofr nowT s h,
    inv_updateChoreStatus nowT s.chores h, ?_, ?_, ?_, h⟩
  · rcases oun with _ | un <;> exact h
  · rw [handleDeleteUser_chores oidx s]
    exact h
  · rw [handleUpdateUser_chores oidx oun s]
    exact h

/-- C9 witness: the chore produced by a concrete joystick confirm-complete
has `pointsAwarded = true`, and the invariant instance obtained from the
theorem shows it is completed. -/
theorem pointsAwarded_implies_completed_invariant_witness :
    (calculateNextDueDate 7 {
        name := "a", person := "p", frequency := "daily",
        completed := true, lastCompleted := 7, nextDue := 0, pointsAwarded := true }).completed
      = true :=
  (pointsAwarded_implies_completed_invariant
    { chores := [{
        name := "a", person := "p", frequency := "daily",
        completed := false, lastCompleted := 5, nextDue := 0, pointsAwarded := false }],
      users := [], currentChoreIndex := 0 }
    7 0 none none none none none (by decide)).2.1
    (calculateNextDueDate 7 {
        name := "a", person := "p", frequency := "daily",
        completed := true, lastCompleted := 7, nextDue := 0, pointsAwarded := true })
    (by decide) (by decide)

/-! ### Claim C10 -/

theorem creditFirst_no_match (uname : String) (p : Int) :
    ∀ users : List User, (∀ u ∈ users, u.username ≠ uname) →
    creditFirst uname p users = users := by
  intro users
  induction users with
  | nil => intro _; rfl
  | cons u rest ih =>
    intro hno
    simp only [creditFirst]
    rw [if_neg (hno u (by simp))]
    rw [ih (fun v hv => hno v (List.mem_cons_of_mem u hv))]

theorem debitFirst_split (uname : String) (p : Int) :
    ∀ (us1 : List User) (u : User) (us2 : List User),
    (∀ v ∈ us1, v.username ≠ uname) → u.username = uname →
    debitFirst uname p (us1 ++ u :: us2)
      = us1 ++ { u with points := if u.points - p < 0 then 0 else u.points - p } :: us2 := by
  intro us1
  induction us1 with
  | nil =>
    intro u us2 _ hu
    simp only [List.nil_append, debitFirst]
    rw [if_pos hu]
  | cons v rest ih =>
    intro u us2 hno hu
    simp only [List.cons_append, debitFirst]
    rw [if_neg (hno v (by simp))]
    exact congrArg (fun l => v :: l) (ih u us2 (fun w hw => hno w (List.mem_cons_of_mem v hw)) hu)

/-- C10: completing a chore whose assignee matches no user still sets
`pointsAwarded = true` (the flag is set unconditionally after the lookup
loop) while changing no user's points; if the user list later changes so
that some user does match (added or renamed into existence) and the chore
is then marked incomplete, that first matching user is debited the
frequency constant, clamped at 0, despite never having been credited. -/
theorem phantom_debit_after_no_match_award
    (n1 n2 i : Nat) (s : AppState) (c : Chore) (users2 : List User)
    (hc : s.chores[i]? = some c) (hnc : c.completed = false)
    (hpa : c.pointsAwarded = false)
    (hnomatch : ∀ u ∈ s.users, u.username ≠ c.person) :
    (toggleChore n1 i s).users = s.users
    ∧ ((toggleChore n1 i s).chores[i]?).map Chore.pointsAwarded = some true
    ∧ (toggleChore n2 i { toggleChore n1 i s with users := users2 }).users
        = debitFirst c.person (pointsForFrequency c.frequency) users2
    ∧ (∀ (us1 : List User) (u : User) (us2 : List User),
        users2 = us1 ++ u :: us2 → (∀ v ∈ us1, v.username ≠ c.person) →
        u.username = c.person →
        debitFirst c.person (pointsForFrequency c.frequency) users2
          = us1 ++ { u with
              points := if u.points - pointsForFrequency c.frequency < 0 then 0
                        else u.points - pointsForFrequency c.frequency } :: us2) := by
  have hlen := getElem?_some_lt _ _ _ hc
  have h1 := toggleChore_complete_eq n1 i s c hc hnc
  have hfld := calculateNextDueDate_fields n1
    { c with completed := true, pointsAwarded := true, lastCompleted := n1 }
  have hc2 : (toggleChore n1 i s).chores[i]?
      = some (calculateNextDueDate n1
          { c with completed := true, pointsAwarded := true, lastCompleted := n1 }) := by
    rw [h1]
    dsimp only
    simp [List.getElem?_set_self, hlen]
  refine ⟨?_, ?_, ?_, ?_⟩
  · rw [h1]
    dsimp only
    rw [hpa]
    exact creditFirst_no_match c.person (pointsForFrequency c.frequency) s.users hnomatch
  · rw [hc2, Option.map_some']
    rw [hfld.2.2.2.2.2.trans rfl]
  · have hc2' : ({ toggleChore n1 i s with users := users2 }).chores[i]?
        = some (calculateNextDueDate n1
            { c with completed := true, pointsAwarded := true, lastCompleted := n1 }) := by
      dsimp only
      exact hc2
    have h2 := toggleChore_incomplete_eq n2 i _ _ hc2' (hfld.2.2.2.1.trans rfl)
    rw [h2]
    dsimp only
    rw [hfld.2.2.2.2.2.trans rfl, hfld.2.1.trans rfl, hfld.2.2.1.trans rfl]
    rw [if_pos rfl]
  · intro us1 u us2 hsplit hno hu
    rw [hsplit]
    exact debitFirst_split c.person (pointsForFrequency c.frequency) us1 u us2 hno hu

/-- C10 witness: assignee "bob" matches nobody at completion; a user
"bob" with 2 points exists at un-completion and is debited the weekly
constant 5, clamped to 0. -/
theorem phantom_debit_after_no_match_award_witness :
    (toggleChore 3 0
        { chores := [{
            name := "Lawn", person := "bob", frequency := "weekly",
            completed := false, lastCompleted := 0, nextDue := 0, pointsAwarded := false }],
          users := [{ username := "alice", points := 7 }],
          currentChoreIndex := 0 }).users
      = [{ username := "alice", points := 7 }]
    ∧ (toggleChore 4 0
        { toggleChore 3 0
            { chores := [{
                name := "Lawn", person := "bob", frequency := "weekly",
                completed := false, lastCompleted := 0, nextDue := 0, pointsAwarded := false }],
              users := [{ username := "alice", points := 7 }],
              currentChoreIndex := 0 }
          with users := [{ username := "bob", points := 2 }] }).users
      = debitFirst "bob" (pointsForFrequency "weekly") [{ username := "bob", points := 2 }]
    ∧ debitFirst "bob" (pointsForFrequency "weekly") [{ username := "bob", points := 2 }]
      = [{ username := "bob", points := 0 }] := by
  have h := phantom_debit_after_no_match_award 3 4 0
    { chores := [{
        name := "Lawn", person := "bob", frequency := "weekly",
        completed := false, lastCompleted := 0, nextDue := 0, pointsAwarded := false }],
      users := [{ username := "alice", points := 7 }],
      currentChoreIndex := 0 }
    { name := "Lawn", person := "bob", frequency := "weekly",
      completed := false, lastCompleted := 0, nextDue := 0, pointsAwarded := false }
    [{ username := "bob", points := 2 }]
    (by rfl) (by rfl) (by rfl) (by decide)
  refine ⟨h.1, h.2.2.1, ?_⟩
  have h4 := h.2.2.2 [] { username := "bob", points := 2 } [] rfl (by simp) rfl
  rw [h4]
  decide

end ChoreOrganizer
